import Mathlib

/-!
Shallow embedding of the PDF report pagination engine of `src/app.py`:
the functions `build_pdf_report`, `pdf_watermark` and `pdf_footer`.

All vertical lengths are in hundredths of a PostScript point so that the
arithmetic of the source (multiples of 0.01 inch on a letter page) is
represented exactly by integers: 1 inch = 7200 units and the letter page
is 61200 x 79200 units.

The drawing calls of the source are modelled as an explicit command list
per page: `Cmd.watermark` for a `pdf_watermark` call, `Cmd.footer` for a
`pdf_footer` call (one footer call draws the watermark text on the left
and the timestamp on the right of a single footer line), and positioned
text commands for each `drawString` of content (all content is drawn at
the fixed horizontal inset `margin_x`, so only the vertical position is
recorded).  `c.showPage()` moves the current command list into the list
of finished pages; `c.save()` finishes the last page.  The generation
timestamp `datetime.now().strftime(...)` is passed in as the parameter
`now`, since the embedding is pure.
-/

namespace Report

/-- `inch` of `reportlab.lib.units` (72 points), in hundredths of a point. -/
def inch : Int := 7200

/-- Letter page width, 612 pt (`page_w` in the source). -/
def page_w : Int := 61200

/-- Letter page height, 792 pt (`page_h` in the source). -/
def page_h : Int := 79200

/-- `margin_x = 0.7 * inch`: fixed horizontal inset of all content. -/
def margin_x : Int := 7 * inch / 10

/-- Vertical cursor start: `y = page_h - 0.9 * inch`, used for page 1 and
after every page break. -/
def topY : Int := page_h - 9 * inch / 10

/-- Bottom safety threshold checked before a heading: `y < 1.3 * inch`. -/
def headingThreshold : Int := 13 * inch / 10

/-- Bottom safety threshold checked before a bullet: `y < 1.1 * inch`. -/
def bulletThreshold : Int := 11 * inch / 10

/-- Cursor advance after the title line: `y -= 0.35 * inch`. -/
def titleStep : Int := 35 * inch / 100

/-- Cursor advance after the subtitle line: `y -= 0.30 * inch`. -/
def subtitleStep : Int := 30 * inch / 100

/-- Cursor advance after a heading: `y -= 0.22 * inch`. -/
def headingStep : Int := 22 * inch / 100

/-- Cursor advance after one wrapped bullet line: `y -= 0.18 * inch`. -/
def lineStep : Int := 18 * inch / 100

/-- Extra gap after each section: `y -= 0.12 * inch`. -/
def sectionGap : Int := 12 * inch / 100

/-- `max_chars = 110`: the fixed character wrap width. -/
def max_chars : Nat := 110

/-- The fixed subtitle drawn on page 1. -/
def subtitleText : String := "Pilot Proposal • Six Sigma Black Belt format • DMAIC governed"

/-- One `(heading, [bullets...])` pair of the `sections` list. -/
structure Sec where
  heading : String
  bullets : List String
deriving Repr, DecidableEq

/-- The input of one render call (title, watermark text, sections). -/
structure ReportSpec where
  title : String
  watermark_text : String
  sections : List Sec
deriving Repr, DecidableEq

/-- One drawing command emitted onto a page. -/
inductive Cmd where
  | watermark (text : String)
  | titleLine (text : String) (y : Int)
  | subtitleLine (text : String) (y : Int)
  | heading (text : String) (y : Int)
  | line (text : String) (y : Int)
  | footer (text : String) (timestamp : String)
deriving Repr, DecidableEq

/-- Render-time state: the vertical cursor `y`, the commands of the page
currently being drawn, and the finished pages. -/
structure RState where
  y : Int
  cur : List Cmd
  done : List (List Cmd)
deriving Repr, DecidableEq

/-- Fuel-indexed fixed-width chunking.  With fuel at least `s.length` this
computes `[s[i:i+max_chars] for i in range(0, len(s), max_chars)]`. -/
def wrapAux : Nat → List Char → List (List Char)
  | _, [] => []
  | 0, _ :: _ => []
  | fuel + 1, a :: s =>
    List.take max_chars (a :: s) :: wrapAux fuel (List.drop max_chars (a :: s))

/-- `lines = [text[i:i+max_chars] for i in range(0, len(text), max_chars)]`
of the source: split into fixed-width character chunks. -/
def wrapLines (s : List Char) : List (List Char) := wrapAux s.length s

/-- `text = f"• {b}"`: the bullet-glyph prefix added before wrapping. -/
def bulletText (b : String) : String := "• " ++ b

/-- The page-break block shared by the heading check (`y < 1.3*inch`) and
the bullet check (`y < 1.1*inch`): draw the footer on the current page,
`showPage`, reset `y` to the top offset, draw the watermark on the new
page. -/
def breakIfLow (threshold : Int) (wm now : String) (st : RState) : RState :=
  if st.y < threshold then
    { y := topY
      cur := [Cmd.watermark wm]
      done := st.done ++ [st.cur ++ [Cmd.footer wm now]] }
  else st

/-- The inner `for line in lines` loop: draw each wrapped line at the
cursor and advance by `lineStep`; there is no page-break check here. -/
def drawLines : List (List Char) → RState → RState
  | [], st => st
  | l :: ls, st =>
    drawLines ls { st with cur := st.cur ++ [Cmd.line (String.mk l) st.y], y := st.y - lineStep }

/-- One iteration of the `for b in bullets` loop: a single page-break
check against `bulletThreshold`, then all wrapped lines of the bullet. -/
def drawBullet (wm now : String) (b : String) (st : RState) : RState :=
  drawLines (wrapLines (bulletText b).data) (breakIfLow bulletThreshold wm now st)

/-- The `for b in bullets` loop. -/
def drawBullets (wm now : String) : List String → RState → RState
  | [], st => st
  | b :: bs, st => drawBullets wm now bs (drawBullet wm now b st)

/-- One iteration of the `for heading, bullets in sections` loop:
page-break check against `headingThreshold`, draw the heading, draw the
bullets, then the extra section gap. -/
def drawSec (wm now : String) (s : Sec) (st : RState) : RState :=
  let st1 := breakIfLow headingThreshold wm now st
  let st2 := { st1 with cur := st1.cur ++ [Cmd.heading s.heading st1.y], y := st1.y - headingStep }
  let st3 := drawBullets wm now s.bullets st2
  { st3 with y := st3.y - sectionGap }

/-- The `for heading, bullets in sections` loop. -/
def drawSecs (wm now : String) : List Sec → RState → RState
  | [], st => st
  | s :: ss, st => drawSecs wm now ss (drawSec wm now s st)

/-- `build_pdf_report(title, sections, watermark_text)` of the source,
with the footer timestamp passed in as `now`.  Page 1 starts with the
watermark, the title at the top offset and the subtitle; then the
sections are drawn; finally the footer is drawn on the last page and the
document is finished. -/
def build_pdf_report (title : String) (sections : List Sec) (watermark_text : String)
    (now : String) : List (List Cmd) :=
  let st0 : RState := { y := topY, cur := [Cmd.watermark watermark_text], done := [] }
  let st1 : RState := { st0 with cur := st0.cur ++ [Cmd.titleLine title st0.y], y := st0.y - titleStep }
  let st2 : RState := { st1 with cur := st1.cur ++ [Cmd.subtitleLine subtitleText st1.y], y := st1.y - subtitleStep }
  let st3 := drawSecs watermark_text now sections st2
  st3.done ++ [st3.cur ++ [Cmd.footer watermark_text now]]

/-- `render(spec)` of the specification, as a wrapper around
`build_pdf_report` in the argument order of the source call site. -/
def render (spec : ReportSpec) (now : String) : List (List Cmd) :=
  build_pdf_report spec.title spec.sections spec.watermark_text now

/-! ### Basic facts about the wrapping step -/

theorem wrapAux_nil (fuel : Nat) : wrapAux fuel [] = [] := by
  cases fuel <;> rfl

theorem wrapAux_flatten : ∀ (fuel : Nat) (s : List Char), s.length ≤ fuel →
    (wrapAux fuel s).flatten = s
  | fuel, [], _ => by simp [wrapAux_nil]
  | 0, a :: s, h => absurd h (by simp)
  | fuel + 1, a :: s, h => by
    have hlen : (List.drop max_chars (a :: s)).length ≤ fuel := by
      simp only [max_chars, List.length_drop, List.length_cons] at h ⊢
      omega
    simp only [wrapAux, List.flatten_cons, wrapAux_flatten fuel _ hlen,
      List.take_append_drop]

/-- Concatenating the wrapped chunks gives back the wrapped string. -/
theorem wrapLines_flatten (s : List Char) : (wrapLines s).flatten = s :=
  wrapAux_flatten s.length s (Nat.le_refl _)

theorem wrapAux_length : ∀ (fuel : Nat) (s : List Char), s.length ≤ fuel →
    (wrapAux fuel s).length = (s.length + 109) / 110
  | fuel, [], _ => by simp [wrapAux_nil]
  | 0, a :: s, h => absurd h (by simp)
  | fuel + 1, a :: s, h => by
    have hlen : (List.drop max_chars (a :: s)).length ≤ fuel := by
      simp only [max_chars, List.length_drop, List.length_cons] at h ⊢
      omega
    simp only [wrapAux, List.length_cons, wrapAux_length fuel _ hlen, List.length_drop]
    simp only [max_chars, List.length_cons]
    omega

/-- The number of wrapped chunks is the length of the string divided by
the wrap width, rounded up. -/
theorem wrapLines_length (s : List Char) : (wrapLines s).length = (s.length + 109) / 110 :=
  wrapAux_length s.length s (Nat.le_refl _)

theorem bulletText_data (b : String) : (bulletText b).data = '•' :: ' ' :: b.data := by
  simp [bulletText, String.data_append]

/-- C4: the wrapped lines of a bullet, joined back together and with the
two-character bullet-glyph prefix removed, give back the bullet exactly. -/
theorem claim_C4_wrap_roundtrip (b : String) :
    (wrapLines (bulletText b).data).flatten = (bulletText b).data ∧
      String.mk (((wrapLines (bulletText b).data).flatten).drop 2) = b := by
  refine ⟨wrapLines_flatten _, ?_⟩
  rw [wrapLines_flatten, bulletText_data]
  rfl

/-! ### Observers on rendered documents -/

/-- Vertical positions of all wrapped bullet lines drawn in a document. -/
def lineYs (d : List (List Cmd)) : List Int :=
  d.flatten.filterMap fun c => match c with | Cmd.line _ y => some y | _ => none

/-- True when some wrapped bullet line is drawn below `bulletThreshold`. -/
def hasLineBelowBulletLimit (d : List (List Cmd)) : Bool :=
  (lineYs d).any fun y => decide (y < bulletThreshold)

/-! ### C3: the long-bullet wrapping scenario -/

set_option maxRecDepth 40000 in
/-- C3 counterexample: a single 1000-character bullet does NOT wrap into
9 lines of 110 characters plus one line of 10 characters: the last chunk
has 12 characters, because the two-character prefix added by
`text = f"• {b}"` pushes the total to 1002 = 9 * 110 + 12. -/
theorem claim_C3_cex :
    ¬ (wrapLines (bulletText (String.mk (List.replicate 1000 'a'))).data).map List.length
        = List.replicate 9 110 ++ [10] := by decide

set_option maxRecDepth 40000 in
/-- C3 (amended): a single 1000-character bullet with wrap width 110
wraps into exactly 10 lines, 9 of length 110 and one final line of
length 12: the 1000 characters plus the two-character bullet-glyph
prefix. -/
theorem claim_C3_long_bullet :
    (wrapLines (bulletText (String.mk (List.replicate 1000 'a'))).data).map List.length
      = List.replicate 9 110 ++ [12] := by decide

/-! ### C7: the empty-sections scenario -/

/-- C7: rendering a spec with non-empty title and watermark text and no
sections yields exactly one page holding the watermark, the title, the
one-line subtitle and the footer, and nothing else. -/
theorem claim_C7_empty_sections (title wm now : String)
    (ht : title ≠ "") (hw : wm ≠ "") :
    build_pdf_report title [] wm now =
      [[Cmd.watermark wm, Cmd.titleLine title topY,
        Cmd.subtitleLine subtitleText (topY - titleStep), Cmd.footer wm now]] := rfl

theorem claim_C7_witness :
    ("T" : String) ≠ "" ∧ ("W" : String) ≠ "" ∧
      build_pdf_report "T" [] "W" "ts" =
        [[Cmd.watermark "W", Cmd.titleLine "T" topY,
          Cmd.subtitleLine subtitleText (topY - titleStep), Cmd.footer "W" "ts"]] :=
  ⟨by decide, by decide, claim_C7_empty_sections "T" "W" "ts" (by decide) (by decide)⟩

/-! ### C1: where the page-break check happens -/

theorem drawLines_done (ls : List (List Char)) (st : RState) :
    (drawLines ls st).done = st.done := by
  induction ls generalizing st with
  | nil => rfl
  | cons l ls ih => simp [drawLines, ih]

theorem breakIfLow_le (thr : Int) (wm now : String) (st : RState) (h : thr ≤ topY) :
    thr ≤ (breakIfLow thr wm now st).y := by
  unfold breakIfLow
  split
  · exact h
  · omega

/-- Bullet-section layout constants are below the top start offset. -/
theorem bulletThreshold_le_topY : bulletThreshold ≤ topY := by decide

theorem headingThreshold_le_topY : headingThreshold ≤ topY := by decide

/-- Sections used by the C1 counterexample: 23 empty sections walk the
cursor down to 9288 without any page break, then one section holds a
single 230-character bullet that wraps into three lines. -/
def c1CexSections : List Sec :=
  List.replicate 23 ⟨"H", []⟩ ++ [⟨"H", [String.mk (List.replicate 230 'x')]⟩]

set_option maxRecDepth 40000 in
/-- C1 counterexample: rendering `c1CexSections` produces a single page
(so no page was ever finalized) on which a wrapped bullet line is drawn
below the bullet threshold, refuting that the page-break check runs
before every wrapped output line. -/
theorem claim_C1_cex :
    (build_pdf_report "T" c1CexSections "W" "ts").length = 1 ∧
      hasLineBelowBulletLimit (build_pdf_report "T" c1CexSections "W" "ts") = true := by
  constructor <;> decide

/-- C1 (amended): the page-break check runs once per bullet, not once
per wrapped line: `drawBullet` first applies the check (which brings the
cursor to at least the bullet threshold), then draws every wrapped line
of the bullet with no further check, and in particular the inner line
loop never finalizes a page, so all wrapped lines of one bullet land on
the same page. -/
theorem claim_C1_break_per_bullet :
    (∀ (ls : List (List Char)) (st : RState), (drawLines ls st).done = st.done) ∧
      ∀ (wm now b : String) (st : RState),
        drawBullet wm now b st
            = drawLines (wrapLines (bulletText b).data) (breakIfLow bulletThreshold wm now st) ∧
          bulletThreshold ≤ (breakIfLow bulletThreshold wm now st).y ∧
          (drawBullet wm now b st).done = (breakIfLow bulletThreshold wm now st).done := by
  refine ⟨drawLines_done, fun wm now b st => ⟨rfl, ?_, drawLines_done _ _⟩⟩
  exact breakIfLow_le _ wm now st bulletThreshold_le_topY

/-! ### The state reached after the page-1 header, and the final document -/

/-- Render state after the page-1 watermark, title and subtitle. -/
def initSt (title wm : String) : RState :=
  { y := topY - titleStep - subtitleStep
    cur := [Cmd.watermark wm, Cmd.titleLine title topY,
      Cmd.subtitleLine subtitleText (topY - titleStep)]
    done := [] }

theorem build_eq (title : String) (sections : List Sec) (wm now : String) :
    build_pdf_report title sections wm now =
      (drawSecs wm now sections (initSt title wm)).done ++
        [(drawSecs wm now sections (initSt title wm)).cur ++ [Cmd.footer wm now]] := rfl

/-! ### C2: headings never drawn below the heading threshold -/

/-- No-overflow predicate of one command: a heading must sit at or above
the heading threshold; other commands are unconstrained here. -/
def headOK : Cmd → Prop
  | Cmd.heading _ y => headingThreshold ≤ y
  | _ => True

/-- All commands of a page satisfy `headOK`. -/
def pageHeadOK (p : List Cmd) : Prop := ∀ c ∈ p, headOK c

/-- The heading invariant over the full render state. -/
def invHead (st : RState) : Prop :=
  pageHeadOK st.cur ∧ ∀ p ∈ st.done, pageHeadOK p

theorem pageHeadOK_append {p q : List Cmd} (hp : pageHeadOK p) (hq : pageHeadOK q) :
    pageHeadOK (p ++ q) := by
  intro c hc
  rcases List.mem_append.mp hc with h | h
  · exact hp c h
  · exact hq c h

theorem pageHeadOK_single {c : Cmd} (h : headOK c) : pageHeadOK [c] := by
  intro d hd
  rw [List.mem_singleton] at hd
  exact hd ▸ h

theorem invHead_breakIfLow (thr : Int) (wm now : String) (st : RState) (h : invHead st) :
    invHead (breakIfLow thr wm now st) := by
  unfold breakIfLow
  split
  · refine ⟨pageHeadOK_single trivial, fun p hp => ?_⟩
    rcases List.mem_append.mp hp with h1 | h1
    · exact h.2 p h1
    · rw [List.mem_singleton] at h1
      exact h1 ▸ pageHeadOK_append h.1 (pageHeadOK_single trivial)
  · exact h

theorem invHead_drawLines (ls : List (List Char)) (st : RState) (h : invHead st) :
    invHead (drawLines ls st) := by
  induction ls generalizing st with
  | nil => exact h
  | cons l ls ih =>
    exact ih _ ⟨pageHeadOK_append h.1 (pageHeadOK_single trivial), h.2⟩

theorem invHead_drawBullet (wm now b : String) (st : RState) (h : invHead st) :
    invHead (drawBullet wm now b st) :=
  invHead_drawLines _ _ (invHead_breakIfLow _ wm now st h)

theorem invHead_drawBullets (wm now : String) (bs : List String) (st : RState)
    (h : invHead st) : invHead (drawBullets wm now bs st) := by
  induction bs generalizing st with
  | nil => exact h
  | cons b bs ih => exact ih _ (invHead_drawBullet wm now b st h)

theorem invHead_drawSec (wm now : String) (s : Sec) (st : RState) (h : invHead st) :
    invHead (drawSec wm now s st) := by
  have h1 := invHead_breakIfLow headingThreshold wm now st h
  have hy := breakIfLow_le headingThreshold wm now st headingThreshold_le_topY
  have h2 : invHead { breakIfLow headingThreshold wm now st with
      cur := (breakIfLow headingThreshold wm now st).cur
        ++ [Cmd.heading s.heading (breakIfLow headingThreshold wm now st).y],
      y := (breakIfLow headingThreshold wm now st).y - headingStep } :=
    ⟨pageHeadOK_append h1.1 (pageHeadOK_single hy), h1.2⟩
  have h3 := invHead_drawBullets wm now s.bullets _ h2
  exact ⟨h3.1, h3.2⟩

theorem invHead_drawSecs (wm now : String) (ss : List Sec) (st : RState) (h : invHead st) :
    invHead (drawSecs wm now ss st) := by
  induction ss generalizing st with
  | nil => exact h
  | cons s ss ih => exact ih _ (invHead_drawSec wm now s st h)

theorem invHead_initSt (title wm : String) : invHead (initSt title wm) := by
  refine ⟨fun c hc => ?_, by simp [initSt]⟩
  simp only [initSt, List.mem_cons, List.not_mem_nil, or_false] at hc
  rcases hc with h | h | h <;> exact h ▸ trivial

/-- Sections used by the C2 counterexample: same cursor walk as for C1,
then one section with a single 240-character bullet wrapping into three
lines, the third of which lands at 7560, below the bullet threshold. -/
def c2CexSections : List Sec :=
  List.replicate 23 ⟨"H", []⟩ ++ [⟨"H", [String.mk (List.replicate 240 'y')]⟩]

set_option maxRecDepth 40000 in
/-- C2 counterexample: a rendered document in which a wrapped bullet
line is drawn below the bullet safety threshold, refuting the claimed
no-overflow invariant for bullet lines. -/
theorem claim_C2_cex :
    hasLineBelowBulletLimit (build_pdf_report "T" c2CexSections "W" "ts") = true := by
  decide

/-- C2 (amended): no heading is ever drawn below the heading threshold,
and the page-break check before each bullet guarantees the cursor is at
or above the bullet threshold when the bullet's FIRST wrapped line is
drawn; later wrapped lines of a multi-line bullet carry no such
guarantee. -/
theorem claim_C2_no_overflow (title : String) (sections : List Sec) (wm now : String) :
    (∀ p ∈ build_pdf_report title sections wm now, ∀ c ∈ p, headOK c) ∧
      ∀ (w2 n2 : String) (st : RState),
        bulletThreshold ≤ (breakIfLow bulletThreshold w2 n2 st).y := by
  refine ⟨?_, fun w2 n2 st => breakIfLow_le _ w2 n2 st bulletThreshold_le_topY⟩
  intro p hp c hc
  have h3 := invHead_drawSecs wm now sections _ (invHead_initSt title wm)
  rw [build_eq] at hp
  rcases List.mem_append.mp hp with h | h
  · exact h3.2 p h c hc
  · rw [List.mem_singleton] at h
    subst h
    rcases List.mem_append.mp hc with h | h
    · exact h3.1 c h
    · rw [List.mem_singleton] at h
      exact h ▸ trivial

theorem claim_C2_witness : headOK (Cmd.heading "H" 68040) :=
  (claim_C2_no_overflow "T" [⟨"H", []⟩] "W" "ts").1
    [Cmd.watermark "W", Cmd.titleLine "T" 72720, Cmd.subtitleLine subtitleText 70200,
      Cmd.heading "H" 68040, Cmd.footer "W" "ts"]
    (by decide) (Cmd.heading "H" 68040) (by decide)

/-! ### C5: one watermark and one footer per page -/

/-- True exactly on watermark commands. -/
def isWm : Cmd → Bool
  | Cmd.watermark _ => true
  | _ => false

/-- True exactly on footer commands. -/
def isFooterCmd : Cmd → Bool
  | Cmd.footer _ _ => true
  | _ => false

/-- Number of watermark marks on a page. -/
def wmCount (p : List Cmd) : Nat := p.countP isWm

/-- Number of footer lines on a page. -/
def footerCount (p : List Cmd) : Nat := p.countP isFooterCmd

theorem wmCount_append (p q : List Cmd) : wmCount (p ++ q) = wmCount p + wmCount q :=
  List.countP_append _ _ _

theorem footerCount_append (p q : List Cmd) :
    footerCount (p ++ q) = footerCount p + footerCount q :=
  List.countP_append _ _ _

/-- The decoration invariant: the page being drawn has its watermark and
no footer yet; every finished page has exactly one of each. -/
def invDecor (st : RState) : Prop :=
  wmCount st.cur = 1 ∧ footerCount st.cur = 0 ∧
    ∀ p ∈ st.done, wmCount p = 1 ∧ footerCount p = 1

theorem invDecor_breakIfLow (thr : Int) (wm now : String) (st : RState)
    (h : invDecor st) : invDecor (breakIfLow thr wm now st) := by
  unfold breakIfLow
  split
  · refine ⟨rfl, rfl, fun p hp => ?_⟩
    rcases List.mem_append.mp hp with h1 | h1
    · exact h.2.2 p h1
    · rw [List.mem_singleton] at h1
      subst h1
      rw [wmCount_append, footerCount_append, h.1, h.2.1]
      exact ⟨rfl, rfl⟩
  · exact h

theorem invDecor_drawLines (ls : List (List Char)) (st : RState) (h : invDecor st) :
    invDecor (drawLines ls st) := by
  induction ls generalizing st with
  | nil => exact h
  | cons l ls ih =>
    refine ih _ ⟨?_, ?_, h.2.2⟩
    · rw [wmCount_append, h.1]; rfl
    · rw [footerCount_append, h.2.1]; rfl

theorem invDecor_drawBullet (wm now b : String) (st : RState) (h : invDecor st) :
    invDecor (drawBullet wm now b st) :=
  invDecor_drawLines _ _ (invDecor_breakIfLow _ wm now st h)

theorem invDecor_drawBullets (wm now : String) (bs : List String) (st : RState)
    (h : invDecor st) : invDecor (drawBullets wm now bs st) := by
  induction bs generalizing st with
  | nil => exact h
  | cons b bs ih => exact ih _ (invDecor_drawBullet wm now b st h)

theorem invDecor_drawSec (wm now : String) (s : Sec) (st : RState) (h : invDecor st) :
    invDecor (drawSec wm now s st) := by
  have h1 := invDecor_breakIfLow headingThreshold wm now st h
  have h2 : invDecor { breakIfLow headingThreshold wm now st with
      cur := (breakIfLow headingThreshold wm now st).cur
        ++ [Cmd.heading s.heading (breakIfLow headingThreshold wm now st).y],
      y := (breakIfLow headingThreshold wm now st).y - headingStep } := by
    refine ⟨?_, ?_, h1.2.2⟩
    · rw [wmCount_append, h1.1]; rfl
    · rw [footerCount_append, h1.2.1]; rfl
  have h3 := invDecor_drawBullets wm now s.bullets _ h2
  exact ⟨h3.1, h3.2.1, h3.2.2⟩

theorem invDecor_drawSecs (wm now : String) (ss : List Sec) (st : RState)
    (h : invDecor st) : invDecor (drawSecs wm now ss st) := by
  induction ss generalizing st with
  | nil => exact h
  | cons s ss ih => exact ih _ (invDecor_drawSec wm now s st h)

theorem invDecor_initSt (title wm : String) : invDecor (initSt title wm) :=
  ⟨rfl, rfl, by simp [initSt]⟩

/-- C5: every page of every rendered document carries exactly one
watermark mark and exactly one footer line, pages created by overflow
included. -/
theorem claim_C5_decorations (title : String) (sections : List Sec) (wm now : String) :
    ∀ p ∈ build_pdf_report title sections wm now, wmCount p = 1 ∧ footerCount p = 1 := by
  intro p hp
  have h3 := invDecor_drawSecs wm now sections _ (invDecor_initSt title wm)
  rw [build_eq] at hp
  rcases List.mem_append.mp hp with h | h
  · exact h3.2.2 p h
  · rw [List.mem_singleton] at h
    subst h
    rw [wmCount_append, footerCount_append, h3.1, h3.2.1]
    exact ⟨rfl, rfl⟩

theorem claim_C5_witness :
    wmCount [Cmd.watermark "W", Cmd.titleLine "T" 72720,
        Cmd.subtitleLine subtitleText 70200, Cmd.footer "W" "ts"] = 1 ∧
      footerCount [Cmd.watermark "W", Cmd.titleLine "T" 72720,
        Cmd.subtitleLine subtitleText 70200, Cmd.footer "W" "ts"] = 1 :=
  claim_C5_decorations "T" [] "W" "ts" _ (by decide)

/-! ### C6: determinism up to the footer timestamp -/

/-- Erase the timestamp field of footer commands; all other commands are
kept unchanged. -/
def stripTs : Cmd → Cmd
  | Cmd.footer t _ => Cmd.footer t ""
  | c => c

/-- A document with all footer timestamps erased. -/
def stripDoc (d : List (List Cmd)) : List (List Cmd) := d.map (List.map stripTs)

/-- Two render states that agree except possibly in footer timestamps. -/
def SameUpToTs (st1 st2 : RState) : Prop :=
  st1.y = st2.y ∧ st1.cur.map stripTs = st2.cur.map stripTs ∧
    st1.done.map (List.map stripTs) = st2.done.map (List.map stripTs)

theorem sameUpToTs_breakIfLow (thr : Int) (wm t1 t2 : String) {st1 st2 : RState}
    (h : SameUpToTs st1 st2) :
    SameUpToTs (breakIfLow thr wm t1 st1) (breakIfLow thr wm t2 st2) := by
  obtain ⟨hy, hcur, hdone⟩ := h
  unfold breakIfLow
  rw [hy]
  split
  · refine ⟨rfl, rfl, ?_⟩
    simp only [List.map_append, hdone, List.map_cons, List.map_nil, hcur]
    rfl
  · exact ⟨hy, hcur, hdone⟩

theorem sameUpToTs_drawLines (ls : List (List Char)) {st1 st2 : RState}
    (h : SameUpToTs st1 st2) : SameUpToTs (drawLines ls st1) (drawLines ls st2) := by
  induction ls generalizing st1 st2 with
  | nil => exact h
  | cons l ls ih =>
    refine ih ⟨?_, ?_, h.2.2⟩
    · simp only [h.1]
    · simp only [List.map_append, h.2.1, List.map_cons, List.map_nil, h.1]

theorem sameUpToTs_drawBullet (wm t1 t2 b : String) {st1 st2 : RState}
    (h : SameUpToTs st1 st2) :
    SameUpToTs (drawBullet wm t1 b st1) (drawBullet wm t2 b st2) :=
  sameUpToTs_drawLines _ (sameUpToTs_breakIfLow bulletThreshold wm t1 t2 h)

theorem sameUpToTs_drawBullets (wm t1 t2 : String) (bs : List String) {st1 st2 : RState}
    (h : SameUpToTs st1 st2) :
    SameUpToTs (drawBullets wm t1 bs st1) (drawBullets wm t2 bs st2) := by
  induction bs generalizing st1 st2 with
  | nil => exact h
  | cons b bs ih => exact ih (sameUpToTs_drawBullet wm t1 t2 b h)

theorem sameUpToTs_drawSec (wm t1 t2 : String) (s : Sec) {st1 st2 : RState}
    (h : SameUpToTs st1 st2) :
    SameUpToTs (drawSec wm t1 s st1) (drawSec wm t2 s st2) := by
  have h1 := sameUpToTs_breakIfLow headingThreshold wm t1 t2 h
  have h2 : SameUpToTs
      { breakIfLow headingThreshold wm t1 st1 with
        cur := (breakIfLow headingThreshold wm t1 st1).cur
          ++ [Cmd.heading s.heading (breakIfLow headingThreshold wm t1 st1).y],
        y := (breakIfLow headingThreshold wm t1 st1).y - headingStep }
      { breakIfLow headingThreshold wm t2 st2 with
        cur := (breakIfLow headingThreshold wm t2 st2).cur
          ++ [Cmd.heading s.heading (breakIfLow headingThreshold wm t2 st2).y],
        y := (breakIfLow headingThreshold wm t2 st2).y - headingStep } := by
    refine ⟨?_, ?_, h1.2.2⟩
    · simp only [h1.1]
    · simp only [List.map_append, h1.2.1, List.map_cons, List.map_nil, h1.1]
  have h3 := sameUpToTs_drawBullets wm t1 t2 s.bullets h2
  exact ⟨congrArg (fun z => z - sectionGap) h3.1, h3.2.1, h3.2.2⟩

theorem sameUpToTs_drawSecs (wm t1 t2 : String) (ss : List Sec) {st1 st2 : RState}
    (h : SameUpToTs st1 st2) :
    SameUpToTs (drawSecs wm t1 ss st1) (drawSecs wm t2 ss st2) := by
  induction ss generalizing st1 st2 with
  | nil => exact h
  | cons s ss ih => exact ih (sameUpToTs_drawSec wm t1 t2 s h)

/-- C6: two renders of the same `ReportSpec` produce identical documents
once the footer timestamp is erased: the output is a deterministic
function of the spec with the timestamp as the only time-dependent
part. -/
theorem claim_C6_deterministic (spec : ReportSpec) (t1 t2 : String) :
    stripDoc (render spec t1) = stripDoc (render spec t2) := by
  have h := sameUpToTs_drawSecs spec.watermark_text t1 t2 spec.sections
    (show SameUpToTs (initSt spec.title spec.watermark_text)
      (initSt spec.title spec.watermark_text) from ⟨rfl, rfl, rfl⟩)
  show stripDoc (build_pdf_report spec.title spec.sections spec.watermark_text t1)
    = stripDoc (build_pdf_report spec.title spec.sections spec.watermark_text t2)
  rw [build_eq, build_eq]
  unfold stripDoc
  simp only [List.map_append, List.map_cons, List.map_nil, h.2.2]
  simp only [List.map_append, h.2.1]
  rfl

/-! ### C8: the layout constants and the page-break reset -/

/-- C8: the cursor starts (and is reset after every page break) at 0.9
inch below the top edge, the heading check uses the larger 1.3-inch
bottom threshold, the bullet check the smaller 1.1-inch one, and a page
break resets the cursor to the top offset and redraws the watermark. -/
theorem claim_C8_layout_constants :
    topY = page_h - 9 * inch / 10 ∧
      headingThreshold = 13 * inch / 10 ∧
      bulletThreshold = 11 * inch / 10 ∧
      bulletThreshold < headingThreshold ∧
      (∀ (wm now : String) (st : RState), st.y < headingThreshold →
        (breakIfLow headingThreshold wm now st).y = topY ∧
          (breakIfLow headingThreshold wm now st).cur = [Cmd.watermark wm]) ∧
      ∀ (wm now : String) (st : RState), st.y < bulletThreshold →
        (breakIfLow bulletThreshold wm now st).y = topY ∧
          (breakIfLow bulletThreshold wm now st).cur = [Cmd.watermark wm] := by
  refine ⟨rfl, rfl, rfl, by decide, ?_, ?_⟩ <;>
    · intro wm now st h
      unfold breakIfLow
      rw [if_pos h]
      exact ⟨rfl, rfl⟩

theorem claim_C8_witness :
    (breakIfLow headingThreshold "W" "ts" ⟨0, [], []⟩).y = topY ∧
      (breakIfLow headingThreshold "W" "ts" ⟨0, [], []⟩).cur = [Cmd.watermark "W"] :=
  claim_C8_layout_constants.2.2.2.2.1 "W" "ts" ⟨0, [], []⟩ (by decide)

/-! ### C9: the output size is linear in the input size -/

/-- Total number of drawing commands held in a render state. -/
def stCmds (st : RState) : Nat := st.cur.length + (st.done.map List.length).sum

/-- Total number of drawing commands of a finished document. -/
def docCmds (d : List (List Cmd)) : Nat := (d.map List.length).sum

/-- Size contributed by one bullet string: one unit plus its length. -/
def bulletSize (b : String) : Nat := 1 + b.length

/-- Size contributed by one section. -/
def secSize (s : Sec) : Nat := 1 + (s.bullets.map bulletSize).sum

/-- Size of the whole section list. -/
def specSize (sections : List Sec) : Nat := (sections.map secSize).sum

theorem stCmds_breakIfLow (thr : Int) (wm now : String) (st : RState) :
    stCmds (breakIfLow thr wm now st) ≤ stCmds st + 2 := by
  unfold breakIfLow
  split
  · simp [stCmds, List.map_append, List.sum_append]
    omega
  · omega

theorem stCmds_drawLines (ls : List (List Char)) (st : RState) :
    stCmds (drawLines ls st) = stCmds st + ls.length := by
  induction ls generalizing st with
  | nil => rfl
  | cons l ls ih =>
    rw [drawLines, ih]
    simp [stCmds]
    omega

theorem length_data_bulletText (b : String) : (bulletText b).data.length = b.length + 2 := by
  rw [bulletText_data]
  simp [List.length_cons]

theorem wrapLines_bullet_le (b : String) :
    (wrapLines (bulletText b).data).length ≤ b.length + 1 := by
  rw [wrapLines_length, length_data_bulletText]
  omega

theorem stCmds_drawBullet (wm now b : String) (st : RState) :
    stCmds (drawBullet wm now b st) ≤ stCmds st + 3 * bulletSize b := by
  unfold drawBullet
  rw [stCmds_drawLines]
  have h1 := stCmds_breakIfLow bulletThreshold wm now st
  have h2 := wrapLines_bullet_le b
  unfold bulletSize
  omega

theorem stCmds_drawBullets (wm now : String) (bs : List String) (st : RState) :
    stCmds (drawBullets wm now bs st) ≤ stCmds st + 3 * (bs.map bulletSize).sum := by
  induction bs generalizing st with
  | nil => simp [drawBullets]
  | cons b bs ih =>
    have h1 := stCmds_drawBullet wm now b st
    have h2 := ih (drawBullet wm now b st)
    simp only [drawBullets, List.map_cons, List.sum_cons]
    omega

theorem stCmds_drawSec (wm now : String) (s : Sec) (st : RState) :
    stCmds (drawSec wm now s st) ≤ stCmds st + 3 * secSize s := by
  have h1 := stCmds_breakIfLow headingThreshold wm now st
  have h2 := stCmds_drawBullets wm now s.bullets
    { breakIfLow headingThreshold wm now st with
      cur := (breakIfLow headingThreshold wm now st).cur
        ++ [Cmd.heading s.heading (breakIfLow headingThreshold wm now st).y],
      y := (breakIfLow headingThreshold wm now st).y - headingStep }
  have h3 : stCmds { breakIfLow headingThreshold wm now st with
      cur := (breakIfLow headingThreshold wm now st).cur
        ++ [Cmd.heading s.heading (breakIfLow headingThreshold wm now st).y],
      y := (breakIfLow headingThreshold wm now st).y - headingStep }
      = stCmds (breakIfLow headingThreshold wm now st) + 1 := by
    simp only [stCmds, List.length_append, List.length_cons, List.length_nil]
    omega
  have h5 : stCmds (drawSec wm now s st) = stCmds (drawBullets wm now s.bullets
      { breakIfLow headingThreshold wm now st with
        cur := (breakIfLow headingThreshold wm now st).cur
          ++ [Cmd.heading s.heading (breakIfLow headingThreshold wm now st).y],
        y := (breakIfLow headingThreshold wm now st).y - headingStep }) := rfl
  unfold secSize
  omega

theorem stCmds_drawSecs (wm now : String) (ss : List Sec) (st : RState) :
    stCmds (drawSecs wm now ss st) ≤ stCmds st + 3 * specSize ss := by
  induction ss generalizing st with
  | nil => simp [drawSecs, specSize]
  | cons s ss ih =>
    have h1 := stCmds_drawSec wm now s st
    have h2 := ih (drawSec wm now s st)
    simp only [drawSecs, specSize, List.map_cons, List.sum_cons] at *
    omega

/-- C9: rendering is a total function (every embedded definition is a
terminating Lean function) and the total number of drawing commands of
the output is linearly bounded by the input size, so the work done is
proportional to the total bullet text length plus the number of
sections and bullets. -/
theorem claim_C9_linear_bound (title : String) (sections : List Sec) (wm now : String) :
    docCmds (build_pdf_report title sections wm now) ≤ 4 + 3 * specSize sections := by
  rw [build_eq]
  have h1 := stCmds_drawSecs wm now sections (initSt title wm)
  rw [show stCmds (initSt title wm) = 3 from rfl] at h1
  have h2 : docCmds ((drawSecs wm now sections (initSt title wm)).done ++
      [(drawSecs wm now sections (initSt title wm)).cur ++ [Cmd.footer wm now]])
      = stCmds (drawSecs wm now sections (initSt title wm)) + 1 := by
    simp only [docCmds, stCmds, List.map_append, List.sum_append, List.map_cons,
      List.map_nil, List.sum_cons, List.sum_nil, List.length_append, List.length_cons,
      List.length_nil]
    omega
  omega

/-! ### C10: no input validation, no rejecting path -/

/-- C10: `render` is total and accepts every input: even with an empty
title and empty watermark text it produces a document with at least one
page, and there is no rejecting code path. -/
theorem claim_C10_no_rejection (spec : ReportSpec) (now : String) :
    1 ≤ (render spec now).length := by
  show 1 ≤ (build_pdf_report spec.title spec.sections spec.watermark_text now).length
  rw [build_eq]
  simp

end Report
